import Mathlib

/-!
Verification of `src/mif/intention_particle_filter.py` (class `IntentionParticleFilter`).

Modelling conventions:
* numpy float arrays are modelled as `List ℚ` (exact arithmetic) except where the
  source applies `np.exp`, which forces `List ℝ` (`update_weight`).
* Python exceptions (`ZeroDivisionError` from scalar float division by zero,
  `ValueError` from negative numpy array sizes) are modelled with `Except PyError`.
* numpy random draws (`np.random.choice`, `np.random.uniform`, `np.random.randint`)
  are modelled by passing the drawn values as explicit arguments; probabilistic
  statements about `mutate` are settled against the induced single-particle
  distribution `mutateOutcomeProb`.
-/

/-- Errors raised by the Python runtime in the modelled code paths:
`zeroDivision` for scalar division by zero, `valueError` for invalid
(negative) numpy array sizes. -/
inductive PyError : Type where
  | zeroDivision : PyError
  | valueError : PyError
deriving DecidableEq

/-- Python scalar division: raises `ZeroDivisionError` when the denominator is zero. -/
def pydiv (a b : ℚ) : Except PyError ℚ :=
  if b = 0 then Except.error PyError.zeroDivision else Except.ok (a / b)

/-- The particle state owned by `IntentionParticleFilter`: intention labels,
the derived intention mask, the particle weights, and the opaque per-particle
state estimate `x_est` produced by the application interface. -/
structure IntentionParticleFilter (σ : Type) : Type where
  num_intentions : Nat
  num_particles : Nat
  intention : List Nat
  intention_mask : List (List Bool)
  weight : List ℚ
  x_est : σ
deriving DecidableEq

/-- Line 47-48: `np.arange(I).reshape(-1,1).dot(np.ones(P).reshape(1,-1)).reshape(-1).astype(int)`:
the outer product of `[0, ..., I-1]` with a vector of `P` ones, flattened row-major,
i.e. `I` consecutive constant blocks of length `P`. -/
def intention_blocks (num_intentions num_particles_per_intention : Nat) : List Nat :=
  ((List.range num_intentions).map
    (fun k => List.replicate num_particles_per_intention k)).flatten

/-- Lines 47-48 with Python `int` inputs: `np.ones(P)` raises `ValueError` for
negative `P`; `np.arange(I)` is empty for `I ≤ 0`. -/
def build_intention (num_intentions num_particles_per_intention : Int) : Except PyError (List Nat) :=
  if num_particles_per_intention < 0 then Except.error PyError.valueError
  else Except.ok (intention_blocks num_intentions.toNat num_particles_per_intention.toNat)

/-- Lines 54-76, `create_intention_mask`: the `(I, N)` boolean matrix with
`mask[k][i] = (intention[i] == k)`. -/
def create_intention_mask (num_intentions : Nat) (intention : List Nat) : List (List Bool) :=
  (List.range num_intentions).map (fun k => intention.map (fun c => decide (c = k)))

/-- Lines 78-93, `reset_weights`: `np.ones(N) * (1. / N)`, the uniform weight vector. -/
def reset_weights (num_particles : Nat) : List ℚ :=
  List.replicate num_particles ((1 : ℚ) / (num_particles : ℚ))

/-- Line 92 with a Python `int` count: `np.ones(N)` raises `ValueError` for negative `N`,
and `1. / N` raises `ZeroDivisionError` for `N = 0`. -/
def reset_weightsE (num_particles : Int) : Except PyError (List ℚ) :=
  if num_particles < 0 then Except.error PyError.valueError
  else if num_particles = 0 then Except.error PyError.zeroDivision
  else Except.ok (reset_weights num_particles.toNat)

/-- Lines 6-52, `__init__` with Python `int` inputs: builds `intention` (lines 47-48),
stores the interface-provided initial state estimate `x0` (line 50), builds the mask
(line 51), and resets the weights (line 52), propagating the first raised exception. -/
def initE {σ : Type} (num_intentions num_particles_per_intention : Int) (x0 : σ) :
    Except PyError (IntentionParticleFilter σ) :=
  match build_intention num_intentions num_particles_per_intention with
  | Except.error e => Except.error e
  | Except.ok intention =>
    if num_intentions < 0 ∨ num_intentions * num_particles_per_intention < 0 then
      Except.error PyError.valueError
    else
      match reset_weightsE (num_intentions * num_particles_per_intention) with
      | Except.error e => Except.error e
      | Except.ok w =>
        Except.ok ⟨num_intentions.toNat,
          (num_intentions * num_particles_per_intention).toNat,
          intention,
          create_intention_mask num_intentions.toNat intention,
          w, x0⟩

/-- Lines 113-130, `update_weight`: `weight *= np.exp(-tau * gap); weight /= weight.sum()`.
The discrepancy vector `gap` is the value returned by the application interface's
`compare_observation`; weights are reals since the source applies `np.exp`. -/
noncomputable def update_weight (tau : ℝ) (weight gap : List ℝ) : List ℝ :=
  let w2 := List.zipWith (fun w g => w * Real.exp (-(tau * g))) weight gap
  w2.map (fun x => x / w2.sum)

/-- Events recorded while `resample` runs, in source order, so that the ordering of
state updates and application-interface calls is part of the model. -/
inductive ResampleEvent (σ : Type) : Type where
  | drawIndices : List Nat → ResampleEvent σ
  | setIntention : List Nat → ResampleEvent σ
  | setMask : List (List Bool) → ResampleEvent σ
  | callResampleX : List Nat → σ → ResampleEvent σ
  | resetW : List ℚ → ResampleEvent σ
deriving DecidableEq

/-- Lines 132-153, `resample`: the indices drawn by
`np.random.choice(N, size=N, p=weight)` are passed in as `resampled_indices`, and the
application interface's `resample_x` as the function `resample_x`.  Returns the updated
filter together with the trace of updates and interface calls in source order
(gather `intention`, rebuild mask, call `resample_x`, reset weights). -/
def resample {σ : Type} (f : IntentionParticleFilter σ) (resampled_indices : List Nat)
    (resample_x : List Nat → σ) :
    IntentionParticleFilter σ × List (ResampleEvent σ) :=
  let intention2 := resampled_indices.map (fun i => f.intention.getD i 0)
  let mask2 := create_intention_mask f.num_intentions intention2
  let x2 := resample_x resampled_indices
  let w2 := reset_weights f.num_particles
  (⟨f.num_intentions, f.num_particles, intention2, mask2, w2, x2⟩,
   [ResampleEvent.drawIndices resampled_indices,
    ResampleEvent.setIntention intention2,
    ResampleEvent.setMask mask2,
    ResampleEvent.callResampleX resampled_indices x2,
    ResampleEvent.resetW w2])

/-- Line 172: `1. - mutation_prob * num_intentions / (num_intentions - 1.)`, with the
Python scalar division that raises `ZeroDivisionError` when `num_intentions = 1`. -/
def mutation_mask_probE (num_intentions : Nat) (mutation_prob : ℚ) : Except PyError ℚ :=
  match pydiv (mutation_prob * (num_intentions : ℚ)) ((num_intentions : ℚ) - 1) with
  | Except.error e => Except.error e
  | Except.ok q => Except.ok (1 - q)

/-- Line 172 as a total rational function (defined whenever `num_intentions ≠ 1`). -/
def mutation_mask_prob (num_intentions : Nat) (mutation_prob : ℚ) : ℚ :=
  1 - mutation_prob * (num_intentions : ℚ) / ((num_intentions : ℚ) - 1)

/-- Lines 174-175 for one particle:
`intention * (1 - mutation_mask) + randint * mutation_mask`, where `mutation_mask`
is the boolean `u > mutation_mask_prob` and `r` the `randint` redraw. -/
def mutate_select (cur r : Nat) (mutation_mask : Bool) : Nat :=
  cur * (1 - mutation_mask.toNat) + r * mutation_mask.toNat

/-- Element-wise combination of three equal-length arrays (numpy vectorized arithmetic). -/
def zip_with3 {α β γ δ : Type} (f : α → β → γ → δ) : List α → List β → List γ → List δ
  | a :: as, b :: bs, c :: cs => f a b c :: zip_with3 f as bs cs
  | _, _, _ => []

/-- Lines 155-178, `mutate`: the per-particle uniform draws of
`np.random.uniform(size=N)` are passed in as `us` and the `np.random.randint(0, I, N)`
redraws as `rs`.  Line 172 raises `ZeroDivisionError` when `num_intentions = 1`;
`np.random.randint(0, 0, N)` raises `ValueError` when `num_intentions = 0`.
On success only `intention` and the rebuilt `intention_mask` change. -/
def mutateE {σ : Type} (f : IntentionParticleFilter σ) (mutation_prob : ℚ)
    (us : List ℚ) (rs : List Nat) : Except PyError (IntentionParticleFilter σ) :=
  match mutation_mask_probE f.num_intentions mutation_prob with
  | Except.error e => Except.error e
  | Except.ok mask_prob =>
    if f.num_intentions = 0 then Except.error PyError.valueError
    else
      let intention2 := zip_with3
        (fun cur u r => mutate_select cur r (decide (mask_prob < u))) f.intention us rs
      Except.ok ⟨f.num_intentions, f.num_particles, intention2,
        create_intention_mask f.num_intentions intention2, f.weight, f.x_est⟩

/-- Modelled distribution of a single particle's label after one `mutate` step.
The uniform draw `u` influences the outcome only through the comparison
`u > mutation_mask_prob` (line 173), which for a threshold in `[0, 1]` holds with
probability `1 - mutation_mask_prob`; the redraw (line 174) is uniform over
`{0, ..., I-1}` and independent.  The outcome of each atom is computed by the
source's `mutate_select`. -/
def mutateOutcomeProb (num_intentions : Nat) (mutation_prob : ℚ) (cur c : Nat) : ℚ :=
  let t := mutation_mask_prob num_intentions mutation_prob
  ∑ r ∈ Finset.range num_intentions,
    (1 / (num_intentions : ℚ)) *
      (t * (if mutate_select cur r false = c then 1 else 0)
        + (1 - t) * (if mutate_select cur r true = c then 1 else 0))

/-- Lines 180-194, `get_intention_probability`:
`(self.weight * self.intention_mask).sum(axis=1)`, i.e. for each intention row the
sum of `weight[i] * mask[k][i]` over particles.  A pure function of the state. -/
def get_intention_probability {σ : Type} (f : IntentionParticleFilter σ) : List ℚ :=
  f.intention_mask.map
    (fun row => (List.zipWith (fun w b => w * (if b then (1 : ℚ) else 0)) f.weight row).sum)

/-- A concrete well-formed filter state with two intentions and one particle per
intention (as produced by construction with `I = 2`, `P = 1`), used to instantiate
universally quantified theorems at a concrete input. -/
def exampleFilter2 : IntentionParticleFilter Nat :=
  ⟨2, 2, [0, 1], [[true, false], [false, true]], [1 / 2, 1 / 2], 0⟩

/-- A concrete filter state with a single intention (as produced by construction with
`I = 1`, `P = 1`). -/
def exampleFilter1 : IntentionParticleFilter Nat :=
  ⟨1, 1, [0], [[true]], [1], 0⟩

/-! ### Helper lemmas -/

theorem length_intention_blocks (I P : Nat) : (intention_blocks I P).length = I * P := by
  induction I with
  | zero => simp [intention_blocks]
  | succ n ih =>
    simp only [intention_blocks, List.range_succ, List.map_append, List.flatten_append] at ih ⊢
    simp [ih, Nat.succ_mul]

theorem count_intention_blocks (I P k : Nat) :
    (intention_blocks I P).count k = if k < I then P else 0 := by
  induction I with
  | zero => simp [intention_blocks]
  | succ n ih =>
    simp only [intention_blocks, List.range_succ, List.map_append, List.flatten_append] at ih ⊢
    rw [List.count_append, ih]
    simp only [List.map_cons, List.map_nil, List.flatten_cons, List.flatten_nil,
      List.append_nil, List.count_replicate, beq_iff_eq]
    split_ifs <;> omega

theorem mem_intention_blocks_lt (I P : Nat) : ∀ x ∈ intention_blocks I P, x < I := by
  intro x hx
  simp only [intention_blocks, List.mem_flatten, List.mem_map] at hx
  obtain ⟨l, ⟨k, hk, rfl⟩, hxl⟩ := hx
  rw [List.mem_replicate] at hxl
  exact hxl.2 ▸ List.mem_range.mp hk

theorem getD_map_of_lt {α β : Type} (f : α → β) (l : List α) (i : Nat) (d : β) (d2 : α)
    (h : i < l.length) : (l.map f).getD i d = f (l.getD i d2) := by
  rw [List.getD_eq_getElem l d2 h, List.getD_eq_getElem _ d (by simpa using h)]
  simp

theorem length_create_intention_mask (I : Nat) (v : List Nat) :
    (create_intention_mask I v).length = I := by
  simp [create_intention_mask]

theorem row_length_create_intention_mask (I : Nat) (v : List Nat) :
    ∀ row ∈ create_intention_mask I v, row.length = v.length := by
  intro row hrow
  simp only [create_intention_mask, List.mem_map] at hrow
  obtain ⟨k, _, rfl⟩ := hrow
  simp

theorem getD_create_intention_mask (I : Nat) (v : List Nat) (k : Nat) (hk : k < I) :
    (create_intention_mask I v).getD k [] = v.map (fun c => decide (c = k)) := by
  unfold create_intention_mask
  rw [getD_map_of_lt _ _ _ _ 0 (by simpa using hk)]
  rw [List.getD_eq_getElem _ 0 (by simpa using hk)]
  simp

theorem entry_create_intention_mask (I : Nat) (v : List Nat) (k i : Nat)
    (hk : k < I) (hi : i < v.length) :
    ((create_intention_mask I v).getD k []).getD i false = decide (v.getD i 0 = k) := by
  rw [getD_create_intention_mask I v k hk, getD_map_of_lt _ _ _ _ 0 hi]

theorem length_filter_decide_range (n a : Nat) :
    ((List.range n).filter (fun k => decide (a = k))).length = if a < n then 1 else 0 := by
  induction n with
  | zero => simp
  | succ m ih =>
    rw [List.range_succ, List.filter_append, List.length_append, ih]
    by_cases h : a = m
    · subst h
      simp [Nat.lt_irrefl, Nat.lt_succ_self]
    · simp only [List.filter_cons, List.filter_nil, decide_eq_true_eq, h, if_false,
        List.length_nil]
      split_ifs <;> omega

theorem one_hot_column (I : Nat) (v : List Nat) (hv : ∀ x ∈ v, x < I) (i : Nat)
    (hi : i < v.length) :
    ((List.range I).filter
      (fun k => ((create_intention_mask I v).getD k []).getD i false)).length = 1 := by
  have ha : v.getD i 0 < I := by
    rw [List.getD_eq_getElem _ _ hi]
    exact hv _ (List.getElem_mem hi)
  have hcongr : (List.range I).filter
      (fun k => ((create_intention_mask I v).getD k []).getD i false)
      = (List.range I).filter (fun k => decide (v.getD i 0 = k)) := by
    apply List.filter_congr
    intro k hk
    rw [entry_create_intention_mask I v k i (List.mem_range.mp hk) hi]
  rw [hcongr, length_filter_decide_range, if_pos ha]

theorem list_range_map_sum {M : Type} [AddCommMonoid M] (f : Nat → M) (n : Nat) :
    ((List.range n).map f).sum = ∑ k ∈ Finset.range n, f k := by
  induction n with
  | zero => simp
  | succ m ih =>
    rw [List.range_succ, List.map_append, List.sum_append, Finset.sum_range_succ, ih]
    simp

theorem sum_map_div_const (l : List ℝ) (c : ℝ) :
    (l.map (fun x => x / c)).sum = l.sum / c := by
  induction l with
  | nil => simp
  | cons a t ih => simp [ih, add_div]

theorem sum_map_mul_const (l : List ℝ) (c : ℝ) :
    (l.map (fun x => x * c)).sum = l.sum * c := by
  induction l with
  | nil => simp
  | cons a t ih => simp [ih, add_mul]

theorem zipWith_weight_pos (tau : ℝ) (w g : List ℝ) (hw : ∀ x ∈ w, 0 < x) :
    ∀ y ∈ List.zipWith (fun a b => a * Real.exp (-(tau * b))) w g, 0 < y := by
  induction w generalizing g with
  | nil => simp
  | cons a t ih =>
    cases g with
    | nil => simp
    | cons b gt =>
      intro y hy
      simp only [List.zipWith_cons_cons, List.mem_cons] at hy
      rcases hy with rfl | hy
      · exact mul_pos (hw a (by simp)) (Real.exp_pos _)
      · exact ih gt (fun x hx => hw x (by simp [hx])) y hy

theorem getD_zipWith_of_lt {α β γ : Type} (f : α → β → γ) (as : List α) (bs : List β)
    (i : Nat) (d : γ) (da : α) (db : β) (h1 : i < as.length) (h2 : i < bs.length) :
    (List.zipWith f as bs).getD i d = f (as.getD i da) (bs.getD i db) := by
  rw [List.getD_eq_getElem _ _ (by rw [List.length_zipWith]; omega),
      List.getD_eq_getElem _ _ h1, List.getD_eq_getElem _ _ h2]
  exact List.getElem_zipWith

theorem zip_row_sum (k : Nat) (w : List ℚ) (v : List Nat) :
    (List.zipWith (fun a b => a * (if b then (1 : ℚ) else 0)) w
      (v.map (fun c => decide (c = k)))).sum
      = (List.zipWith (fun a c => if c = k then a else 0) w v).sum := by
  induction w generalizing v with
  | nil => simp
  | cons a t ih =>
    cases v with
    | nil => simp
    | cons c vt =>
      simp only [List.map_cons, List.zipWith_cons_cons, List.sum_cons, ih]
      by_cases h : c = k
      · simp [h]
      · simp [h]

theorem zip_ite_sum_nonneg (k : Nat) (w : List ℚ) (v : List Nat) (hw : ∀ a ∈ w, 0 ≤ a) :
    0 ≤ (List.zipWith (fun a c => if c = k then a else 0) w v).sum := by
  induction w generalizing v with
  | nil => simp
  | cons a t ih =>
    cases v with
    | nil => simp
    | cons c vt =>
      simp only [List.zipWith_cons_cons, List.sum_cons]
      have h1 : 0 ≤ (if c = k then a else 0) := by
        split_ifs
        · exact hw a (by simp)
        · exact le_refl 0
      have h2 := ih vt (fun x hx => hw x (by simp [hx]))
      linarith

theorem sum_range_zip_ite_sum (I : Nat) (w : List ℚ) (v : List Nat)
    (hlen : w.length = v.length) (hv : ∀ c ∈ v, c < I) :
    ∑ k ∈ Finset.range I,
      (List.zipWith (fun a c => if c = k then a else 0) w v).sum = w.sum := by
  induction w generalizing v with
  | nil => simp
  | cons a t ih =>
    cases v with
    | nil => simp at hlen
    | cons c vt =>
      simp only [List.zipWith_cons_cons, List.sum_cons]
      rw [Finset.sum_add_distrib]
      have h1 : ∑ k ∈ Finset.range I, (if c = k then a else 0) = a := by
        rw [Finset.sum_ite_eq (Finset.range I) c (fun _ => a),
          if_pos (Finset.mem_range.mpr (hv c (by simp)))]
      rw [h1, ih vt (by simpa using hlen) (fun x hx => hv x (by simp [hx]))]

theorem get_intention_probability_eq {σ : Type} (f : IntentionParticleFilter σ)
    (hmask : f.intention_mask = create_intention_mask f.num_intentions f.intention) :
    get_intention_probability f
      = (List.range f.num_intentions).map
          (fun k => (List.zipWith (fun a c => if c = k then a else 0)
            f.weight f.intention).sum) := by
  rw [get_intention_probability, hmask, create_intention_mask, List.map_map]
  apply List.map_congr_left
  intro k _
  exact zip_row_sum k f.weight f.intention

/-! ### Claim theorems -/

/-- Claim C7: for every filter state whose weights are non-negative and sum to 1
(with a mask consistent with the intention array, intention labels in range, and
matching array lengths), `get_intention_probability` returns a length-`I` vector whose
`k`-th entry is the sum of the weights of the particles with intention `k`; every entry
is non-negative and the entries sum to 1.  The operation is a pure function of the
state, so it mutates nothing. -/
theorem get_intention_probability_spec {σ : Type} (f : IntentionParticleFilter σ)
    (hmask : f.intention_mask = create_intention_mask f.num_intentions f.intention)
    (hlen : f.weight.length = f.intention.length)
    (hvals : ∀ v ∈ f.intention, v < f.num_intentions)
    (hnn : ∀ w ∈ f.weight, 0 ≤ w)
    (hsum : f.weight.sum = 1) :
    (get_intention_probability f).length = f.num_intentions ∧
    (∀ k, k < f.num_intentions → (get_intention_probability f).getD k 0 =
      (List.zipWith (fun a c => if c = k then a else 0) f.weight f.intention).sum) ∧
    (∀ q ∈ get_intention_probability f, 0 ≤ q) ∧
    (get_intention_probability f).sum = 1 := by
  have he := get_intention_probability_eq f hmask
  refine ⟨?_, ?_, ?_, ?_⟩
  · rw [he]
    simp
  · intro k hk
    rw [he, getD_map_of_lt _ _ _ 0 0 (by simpa using hk),
      List.getD_eq_getElem _ _ (by simpa using hk)]
    simp
  · intro q hq
    rw [he] at hq
    obtain ⟨k, _, rfl⟩ := List.mem_map.mp hq
    exact zip_ite_sum_nonneg k f.weight f.intention hnn
  · rw [he, list_range_map_sum, sum_range_zip_ite_sum f.num_intentions f.weight f.intention
      hlen hvals, hsum]

/-- Witness for C7 at a concrete filter state (`I = 2`, `N = 4`). -/
theorem get_intention_probability_spec_witness :
    ((⟨2, 4, [0, 0, 1, 1], [[true, true, false, false], [false, false, true, true]],
        [1/4, 1/4, 1/4, 1/4], 0⟩ : IntentionParticleFilter Nat).intention_mask
      = create_intention_mask 2 [0, 0, 1, 1]) ∧
    (∀ w ∈ [(1 : ℚ)/4, 1/4, 1/4, 1/4], 0 ≤ w) ∧
    ([(1 : ℚ)/4, 1/4, 1/4, 1/4].sum = 1) ∧
    ((get_intention_probability (⟨2, 4, [0, 0, 1, 1],
        [[true, true, false, false], [false, false, true, true]],
        [1/4, 1/4, 1/4, 1/4], 0⟩ : IntentionParticleFilter Nat)).length = 2 ∧
      (∀ k, k < 2 → (get_intention_probability (⟨2, 4, [0, 0, 1, 1],
          [[true, true, false, false], [false, false, true, true]],
          [1/4, 1/4, 1/4, 1/4], 0⟩ : IntentionParticleFilter Nat)).getD k 0 =
        (List.zipWith (fun a c => if c = k then a else 0)
          [(1 : ℚ)/4, 1/4, 1/4, 1/4] [0, 0, 1, 1]).sum) ∧
      (∀ q ∈ get_intention_probability (⟨2, 4, [0, 0, 1, 1],
          [[true, true, false, false], [false, false, true, true]],
          [1/4, 1/4, 1/4, 1/4], 0⟩ : IntentionParticleFilter Nat), 0 ≤ q) ∧
      (get_intention_probability (⟨2, 4, [0, 0, 1, 1],
          [[true, true, false, false], [false, false, true, true]],
          [1/4, 1/4, 1/4, 1/4], 0⟩ : IntentionParticleFilter Nat)).sum = 1) :=
  ⟨rfl, by norm_num, by norm_num,
    get_intention_probability_spec
      (⟨2, 4, [0, 0, 1, 1], [[true, true, false, false], [false, false, true, true]],
        [1/4, 1/4, 1/4, 1/4], 0⟩ : IntentionParticleFilter Nat)
      rfl rfl (by decide) (by norm_num) (by norm_num)⟩

/-- Claim C8: `create_intention_mask` is a pure function of the intention array and
`I` (and `N = intention.length`): it returns the `I × N` boolean matrix with
`mask[k][i]` true iff `intention[i] = k`, every column has exactly one true entry
(when labels are in range), and both `resample` and `mutate` rebuild the mask from
the freshly reassigned intention array, so the mask is never stale. -/
theorem create_intention_mask_spec {σ : Type} (I : Nat) (v : List Nat)
    (hv : ∀ x ∈ v, x < I)
    (f f2 : IntentionParticleFilter σ) (idx : List Nat) (rx : List Nat → σ)
    (p : ℚ) (us : List ℚ) (rs : List Nat) :
    (create_intention_mask I v).length = I ∧
    (∀ row ∈ create_intention_mask I v, row.length = v.length) ∧
    (∀ k, k < I → ∀ i, i < v.length →
      ((create_intention_mask I v).getD k []).getD i false = decide (v.getD i 0 = k)) ∧
    (∀ i, i < v.length →
      ((List.range I).filter
        (fun k => ((create_intention_mask I v).getD k []).getD i false)).length = 1) ∧
    ((resample f idx rx).1.intention_mask
      = create_intention_mask (resample f idx rx).1.num_intentions
          (resample f idx rx).1.intention) ∧
    (∀ f3, mutateE f2 p us rs = Except.ok f3 →
      f3.intention_mask = create_intention_mask f3.num_intentions f3.intention) := by
  refine ⟨length_create_intention_mask I v, row_length_create_intention_mask I v,
    ?_, ?_, rfl, ?_⟩
  · intro k hk i hi
    exact entry_create_intention_mask I v k i hk hi
  · intro i hi
    exact one_hot_column I v hv i hi
  · intro f3 h
    unfold mutateE at h
    split at h
    · exact absurd h (by simp)
    · split at h
      · exact absurd h (by simp)
      · injection h with h2
        subst h2
        rfl

/-- Witness for C8 at concrete inputs (`I = 2`, `v = [0, 1]`, the example filter,
concrete resample indices and mutation draws). -/
theorem create_intention_mask_spec_witness :
    (∀ x ∈ [0, 1], x < 2) ∧
    ((create_intention_mask 2 [0, 1]).length = 2 ∧
      (∀ row ∈ create_intention_mask 2 [0, 1], row.length = ([0, 1] : List Nat).length) ∧
      (∀ k, k < 2 → ∀ i, i < ([0, 1] : List Nat).length →
        ((create_intention_mask 2 [0, 1]).getD k []).getD i false
          = decide (([0, 1] : List Nat).getD i 0 = k)) ∧
      (∀ i, i < ([0, 1] : List Nat).length →
        ((List.range 2).filter
          (fun k => ((create_intention_mask 2 [0, 1]).getD k []).getD i false)).length = 1) ∧
      ((resample exampleFilter2 [0, 0] List.length).1.intention_mask
        = create_intention_mask (resample exampleFilter2 [0, 0] List.length).1.num_intentions
            (resample exampleFilter2 [0, 0] List.length).1.intention) ∧
      (∀ f3, mutateE exampleFilter2 (1/100) [1/2, 1/2] [0, 0] = Except.ok f3 →
        f3.intention_mask = create_intention_mask f3.num_intentions f3.intention)) :=
  ⟨by decide,
    create_intention_mask_spec 2 [0, 1] (by decide) exampleFilter2 exampleFilter2
      [0, 0] List.length (1/100) [1/2, 1/2] [0, 0]⟩

/-- Claim C9: `mutate` updates only the intention array and the rebuilt mask: on a
successful call the weight vector (and likewise the particle counts and the state
estimates) after the call is identical to the weight vector before it. -/
theorem mutate_preserves_weight {σ : Type} (f f2 : IntentionParticleFilter σ) (p : ℚ)
    (us : List ℚ) (rs : List Nat) (h : mutateE f p us rs = Except.ok f2) :
    f2.num_intentions = f.num_intentions ∧ f2.num_particles = f.num_particles ∧
    f2.weight = f.weight ∧ f2.x_est = f.x_est := by
  unfold mutateE at h
  split at h
  · exact absurd h (by simp)
  · split at h
    · exact absurd h (by simp)
    · injection h with h2
      subst h2
      exact ⟨rfl, rfl, rfl, rfl⟩

/-- Witness for C9: a concrete successful `mutate` call on the example filter
(one particle keeps its label, one is redrawn) leaves the weights unchanged. -/
theorem mutate_preserves_weight_witness :
    (mutateE exampleFilter2 (1/100) [1/2, 1] [1, 0]
      = Except.ok (⟨2, 2, [0, 0], [[true, true], [false, false]],
          [1/2, 1/2], 0⟩ : IntentionParticleFilter Nat)) ∧
    ((⟨2, 2, [0, 0], [[true, true], [false, false]],
        [1/2, 1/2], 0⟩ : IntentionParticleFilter Nat).num_intentions
        = exampleFilter2.num_intentions ∧
      (⟨2, 2, [0, 0], [[true, true], [false, false]],
        [1/2, 1/2], 0⟩ : IntentionParticleFilter Nat).num_particles
        = exampleFilter2.num_particles ∧
      (⟨2, 2, [0, 0], [[true, true], [false, false]],
        [1/2, 1/2], 0⟩ : IntentionParticleFilter Nat).weight = exampleFilter2.weight ∧
      (⟨2, 2, [0, 0], [[true, true], [false, false]],
        [1/2, 1/2], 0⟩ : IntentionParticleFilter Nat).x_est = exampleFilter2.x_est) :=
  ⟨by
    norm_num [mutateE, mutation_mask_probE, pydiv, zip_with3, mutate_select,
      create_intention_mask, exampleFilter2]
    decide,
   mutate_preserves_weight exampleFilter2
      (⟨2, 2, [0, 0], [[true, true], [false, false]],
        [1/2, 1/2], 0⟩ : IntentionParticleFilter Nat) (1/100) [1/2, 1] [1, 0]
      (by
        norm_num [mutateE, mutation_mask_probE, pydiv, zip_with3, mutate_select,
          create_intention_mask, exampleFilter2]
        decide)⟩

/-- Claim C3: `resample`, given the `N` indices drawn from the weight distribution
(each a valid index into the previous particle arrays), gathers `intention` by those
indices, rebuilds the mask from the new intention array, passes the same drawn indices
to `resample_x` — and does so only after `intention` has been reindexed, as recorded
by the event trace in which `setIntention` precedes `callResampleX` — and resets the
weights.  Consequently the post-call intention array has length `N`, every post-call
intention value occurs in the pre-call intention array, the post-call weights are
uniform at `1/N`, and the mask matches the new intention array. -/
theorem resample_spec {σ : Type} (f : IntentionParticleFilter σ) (idx : List Nat)
    (rx : List Nat → σ)
    (hlen : idx.length = f.num_particles)
    (hidx : ∀ i ∈ idx, i < f.intention.length) :
    (resample f idx rx).1.intention.length = f.num_particles ∧
    (∀ v ∈ (resample f idx rx).1.intention, v ∈ f.intention) ∧
    (resample f idx rx).1.weight
      = List.replicate f.num_particles (1 / (f.num_particles : ℚ)) ∧
    (resample f idx rx).1.intention_mask
      = create_intention_mask f.num_intentions (resample f idx rx).1.intention ∧
    (resample f idx rx).1.x_est = rx idx ∧
    (resample f idx rx).2
      = [ResampleEvent.drawIndices idx,
         ResampleEvent.setIntention ((resample f idx rx).1.intention),
         ResampleEvent.setMask ((resample f idx rx).1.intention_mask),
         ResampleEvent.callResampleX idx (rx idx),
         ResampleEvent.resetW ((resample f idx rx).1.weight)] := by
  refine ⟨?_, ?_, rfl, rfl, rfl, rfl⟩
  · simp [resample, hlen]
  · intro v hv
    simp only [resample, List.mem_map] at hv
    obtain ⟨i, hi, rfl⟩ := hv
    have hlt := hidx i hi
    rw [List.getD_eq_getElem _ _ hlt]
    exact List.getElem_mem hlt

/-- Witness for C3: resampling the example filter with drawn indices `[1, 1]`. -/
theorem resample_spec_witness :
    (([1, 1] : List Nat).length = exampleFilter2.num_particles) ∧
    (∀ i ∈ ([1, 1] : List Nat), i < exampleFilter2.intention.length) ∧
    ((resample exampleFilter2 [1, 1] List.length).1.intention.length
        = exampleFilter2.num_particles ∧
      (∀ v ∈ (resample exampleFilter2 [1, 1] List.length).1.intention,
        v ∈ exampleFilter2.intention) ∧
      (resample exampleFilter2 [1, 1] List.length).1.weight
        = List.replicate exampleFilter2.num_particles
            (1 / (exampleFilter2.num_particles : ℚ)) ∧
      (resample exampleFilter2 [1, 1] List.length).1.intention_mask
        = create_intention_mask exampleFilter2.num_intentions
            (resample exampleFilter2 [1, 1] List.length).1.intention ∧
      (resample exampleFilter2 [1, 1] List.length).1.x_est = List.length [1, 1] ∧
      (resample exampleFilter2 [1, 1] List.length).2
        = [ResampleEvent.drawIndices [1, 1],
           ResampleEvent.setIntention ((resample exampleFilter2 [1, 1] List.length).1.intention),
           ResampleEvent.setMask ((resample exampleFilter2 [1, 1] List.length).1.intention_mask),
           ResampleEvent.callResampleX [1, 1] (List.length [1, 1]),
           ResampleEvent.resetW ((resample exampleFilter2 [1, 1] List.length).1.weight)]) :=
  ⟨rfl, by decide, resample_spec exampleFilter2 [1, 1] List.length rfl (by decide)⟩

/-- Helper: on valid inputs (`I ≥ 1`, `P ≥ 1`) construction succeeds and produces the
block intention array, the derived mask, and uniform weights. -/
theorem initE_ok (I P : Nat) (hI : 1 ≤ I) (hP : 1 ≤ P) {σ : Type} (x0 : σ) :
    initE (I : ℤ) (P : ℤ) x0 = Except.ok
      ⟨I, I * P, intention_blocks I P, create_intention_mask I (intention_blocks I P),
        reset_weights (I * P), x0⟩ := by
  have hPc : ¬ ((P : ℤ) < 0) := by omega
  have hprod : (I : ℤ) * (P : ℤ) = ((I * P : ℕ) : ℤ) := by push_cast; ring
  have hIP : 1 ≤ I * P := Nat.mul_le_mul hI hP
  have hne : ¬ ((I : ℤ) < 0 ∨ (I : ℤ) * (P : ℤ) < 0) := by rw [hprod]; omega
  have hb : build_intention (I : ℤ) (P : ℤ) = Except.ok (intention_blocks I P) := by
    rw [build_intention, if_neg hPc, Int.toNat_natCast, Int.toNat_natCast]
  have hr : reset_weightsE ((I : ℤ) * (P : ℤ)) = Except.ok (reset_weights (I * P)) := by
    rw [reset_weightsE, hprod, if_neg (by omega : ¬ ((I * P : ℕ) : ℤ) < 0),
      if_neg (by omega : ¬ ((I * P : ℕ) : ℤ) = 0), Int.toNat_natCast]
  unfold initE
  rw [hb]
  simp only [if_neg hne, hr, Int.toNat_natCast]
  rw [hprod, Int.toNat_natCast]

/-- Claim C1: after construction with `I ≥ 1` intentions and `P ≥ 1` particles per
intention, the intention array has length `N = I * P` and is the concatenation of `I`
consecutive constant blocks of length `P` (so each value `0 .. I-1` occurs exactly `P`
times and nothing else occurs), every weight equals `1/N` and the weights sum to 1,
and the intention mask is the one-hot-per-column matrix derived from the intention
array. -/
theorem init_balanced_uniform (I P : Nat) (hI : 1 ≤ I) (hP : 1 ≤ P) {σ : Type}
    (x0 : σ) :
    ∃ f : IntentionParticleFilter σ,
      initE (I : ℤ) (P : ℤ) x0 = Except.ok f ∧
      f.num_intentions = I ∧
      f.num_particles = I * P ∧
      f.intention.length = I * P ∧
      f.intention = intention_blocks I P ∧
      (∀ k, k < I → f.intention.count k = P) ∧
      (∀ k, I ≤ k → f.intention.count k = 0) ∧
      f.weight = List.replicate (I * P) ((1 : ℚ) / ((I * P : ℕ) : ℚ)) ∧
      f.weight.sum = 1 ∧
      f.intention_mask = create_intention_mask I f.intention ∧
      (∀ i, i < I * P → ((List.range I).filter
        (fun k => ((f.intention_mask.getD k []).getD i false))).length = 1) := by
  refine ⟨_, initE_ok I P hI hP x0, rfl, rfl, length_intention_blocks I P, rfl,
    ?_, ?_, rfl, ?_, rfl, ?_⟩
  · intro k hk
    show (intention_blocks I P).count k = P
    rw [count_intention_blocks, if_pos hk]
  · intro k hk
    show (intention_blocks I P).count k = 0
    rw [count_intention_blocks, if_neg (by omega)]
  · show (List.replicate (I * P) ((1 : ℚ) / ((I * P : ℕ) : ℚ))).sum = 1
    rw [List.sum_replicate]
    have hne : ((I * P : ℕ) : ℚ) ≠ 0 := by
      have hIP : 1 ≤ I * P := Nat.mul_le_mul hI hP
      exact Nat.cast_ne_zero.mpr (by omega)
    rw [nsmul_eq_mul, mul_one_div, div_self hne]
  · intro i hi
    exact one_hot_column I (intention_blocks I P) (mem_intention_blocks_lt I P) i
      (by rw [length_intention_blocks]; exact hi)

/-- Witness for C1 at `I = 2`, `P = 3`. -/
theorem init_balanced_uniform_witness :
    1 ≤ 2 ∧ 1 ≤ 3 ∧
    (∃ f : IntentionParticleFilter Unit,
      initE ((2 : ℕ) : ℤ) ((3 : ℕ) : ℤ) () = Except.ok f ∧
      f.num_intentions = 2 ∧
      f.num_particles = 2 * 3 ∧
      f.intention.length = 2 * 3 ∧
      f.intention = intention_blocks 2 3 ∧
      (∀ k, k < 2 → f.intention.count k = 3) ∧
      (∀ k, 2 ≤ k → f.intention.count k = 0) ∧
      f.weight = List.replicate (2 * 3) ((1 : ℚ) / ((2 * 3 : ℕ) : ℚ)) ∧
      f.weight.sum = 1 ∧
      f.intention_mask = create_intention_mask 2 f.intention ∧
      (∀ i, i < 2 * 3 → ((List.range 2).filter
        (fun k => ((f.intention_mask.getD k []).getD i false))).length = 1)) :=
  ⟨by omega, by omega, init_balanced_uniform 2 3 (by omega) (by omega) ()⟩

/-- Counterexample to claim C5 as stated: with `I = 1, P = 0` (an invalid
configuration), construction does fail — but not before any particle array is built:
the intention-array construction step (lines 47-48) completes successfully, and the
failure is the accidental `ZeroDivisionError` raised later by `1. / num_particles` in
`reset_weights` (line 92), not an up-front rejection. -/
theorem init_reject_counterexample :
    build_intention 1 0 = Except.ok [] ∧
    reset_weightsE (1 * 0) = Except.error PyError.zeroDivision ∧
    initE (1 : ℤ) (0 : ℤ) (0 : ℕ) = Except.error PyError.zeroDivision :=
  ⟨rfl, rfl, rfl⟩

/-- Claim C5 (amended): construction with `numIntentions < 1` or
`numParticlesPerIntention < 1` always raises an error — a `ValueError` for negative
array sizes, or a `ZeroDivisionError` in the weight-reset step when `N = I * P = 0` —
so it never silently produces a filter with zero particles; however the failure can
occur after the intention array has been built rather than before. -/
theorem init_invalid_errors {σ : Type} (x0 : σ) (I P : ℤ) (h : I < 1 ∨ P < 1) :
    ∃ e, initE I P x0 = Except.error e := by
  rcases lt_or_ge P 0 with hP | hP
  · exact ⟨PyError.valueError, by simp [initE, build_intention, hP]⟩
  · rcases lt_or_ge I 0 with hI | hI
    · refine ⟨PyError.valueError, ?_⟩
      have hb : build_intention I P = Except.ok (intention_blocks I.toNat P.toNat) := by
        rw [build_intention, if_neg (by omega)]
      simp [initE, hb, hI]
    · have hN : I * P = 0 := by
        rcases h with h1 | h1
        · have hI0 : I = 0 := by omega
          rw [hI0, zero_mul]
        · have hP0 : P = 0 := by omega
          rw [hP0, mul_zero]
      refine ⟨PyError.zeroDivision, ?_⟩
      have hb : build_intention I P = Except.ok (intention_blocks I.toNat P.toNat) := by
        rw [build_intention, if_neg (by omega)]
      have hcond : ¬ (I < 0 ∨ I * P < 0) := by rw [hN]; omega
      have hr : reset_weightsE (I * P) = Except.error PyError.zeroDivision := by
        rw [reset_weightsE, hN]
        norm_num
      simp [initE, hb, hcond, hr]

/-- Witness for C5 (amended) at `I = 0`, `P = 5`. -/
theorem init_invalid_errors_witness :
    ((0 : ℤ) < 1 ∨ (5 : ℤ) < 1) ∧
    (∃ e, initE (0 : ℤ) (5 : ℤ) (0 : ℕ) = Except.error e) :=
  ⟨Or.inl (by omega), init_invalid_errors (0 : ℕ) 0 5 (Or.inl (by omega))⟩

/-- Counterexample to claim C6 as stated: `mutate` with exactly one intention is not
special-cased.  The mutation-probability formula (line 172) is evaluated — its division
by `num_intentions - 1 = 0` is precisely what raises the `ZeroDivisionError` — and the
call is not a no-op returning the unchanged filter. -/
theorem mutate_single_intention_counterexample :
    mutation_mask_probE 1 (1/100) = Except.error PyError.zeroDivision ∧
    mutateE exampleFilter1 (1/100) [1/2] [0] = Except.error PyError.zeroDivision ∧
    mutateE exampleFilter1 (1/100) [1/2] [0] ≠ Except.ok exampleFilter1 := by
  have h2 : mutateE exampleFilter1 (1/100) [1/2] [0]
      = Except.error PyError.zeroDivision := by
    norm_num [mutateE, exampleFilter1, mutation_mask_probE, pydiv]
  refine ⟨by norm_num [mutation_mask_probE, pydiv], h2, ?_⟩
  rw [h2]
  simp

/-- Claim C6 (amended): calling `mutate` on a filter with exactly one intention is not
special-cased; evaluating the mutation-probability formula raises a
`ZeroDivisionError`, which is surfaced to the caller before any particle state is
modified, so the particle state is never silently corrupted. -/
theorem mutate_single_intention_errors {σ : Type} (f : IntentionParticleFilter σ)
    (p : ℚ) (us : List ℚ) (rs : List Nat) (h1 : f.num_intentions = 1) :
    mutateE f p us rs = Except.error PyError.zeroDivision := by
  have hm : mutation_mask_probE f.num_intentions p
      = Except.error PyError.zeroDivision := by
    rw [h1]
    norm_num [mutation_mask_probE, pydiv]
  simp [mutateE, hm]

/-- Witness for C6 (amended) on the concrete single-intention filter. -/
theorem mutate_single_intention_errors_witness :
    exampleFilter1.num_intentions = 1 ∧
    mutateE exampleFilter1 (1/100) [1/2] [0] = Except.error PyError.zeroDivision :=
  ⟨rfl, mutate_single_intention_errors exampleFilter1 (1/100) [1/2] [0] rfl⟩

/-- Helper: with mutation mask `false` (line 174) a particle keeps its label. -/
theorem mutate_select_false (cur r : Nat) : mutate_select cur r false = cur := by
  simp [mutate_select]

/-- Helper: with mutation mask `true` (line 174) a particle takes the redrawn label. -/
theorem mutate_select_true (cur r : Nat) : mutate_select cur r true = r := by
  simp [mutate_select]

/-- Helper: closed form of the single-particle outcome distribution of `mutate`. -/
theorem mutateOutcomeProb_formula (I : Nat) (p : ℚ) (cur c : Nat) (hc : c < I) :
    mutateOutcomeProb I p cur c
      = mutation_mask_prob I p * (if cur = c then 1 else 0)
        + (1 - mutation_mask_prob I p) * (1 / (I : ℚ)) := by
  have hIne : (I : ℚ) ≠ 0 := Nat.cast_ne_zero.mpr (by omega)
  unfold mutateOutcomeProb
  simp only [mutate_select_false, mutate_select_true, mul_add]
  rw [Finset.sum_add_distrib]
  have e1 : ∑ r ∈ Finset.range I,
      (1 / (I : ℚ)) * (mutation_mask_prob I p * (if cur = c then 1 else 0))
      = mutation_mask_prob I p * (if cur = c then 1 else 0) := by
    rw [Finset.sum_const, Finset.card_range, nsmul_eq_mul]
    field_simp
    split_ifs <;> ring
  have e2 : ∑ r ∈ Finset.range I,
      (1 / (I : ℚ)) * ((1 - mutation_mask_prob I p) * (if r = c then 1 else 0))
      = (1 - mutation_mask_prob I p) * (1 / (I : ℚ)) := by
    rw [← Finset.mul_sum, ← Finset.mul_sum,
      Finset.sum_ite_eq' (Finset.range I) c (fun _ => (1 : ℚ)),
      if_pos (Finset.mem_range.mpr hc)]
    ring
  rw [e1, e2]

/-- Counterexample to claim C4 as stated: with `I = 3` and `mutationProb = 1/100`, the
probability that a particle currently labelled `0` ends up reassigned to the specific
other label `1` is `1/200 = mutationProb/(I-1)`, not `mutationProb = 1/100`. -/
theorem mutate_specific_label_counterexample :
    mutateOutcomeProb 3 (1/100) 0 1 = 1/200 ∧ ¬ ((1 : ℚ)/200 = 1/100) := by
  constructor
  · norm_num [mutateOutcomeProb, mutation_mask_prob, mutate_select,
      Finset.sum_range_succ]
  · norm_num

/-- Claim C4 (amended): in `mutate` with `I ≥ 2` intentions, each particle
independently keeps its label when its uniform draw does not exceed the threshold
`1 - mutationProb * I / (I - 1)` (the exact formula of line 172), and when mutation
fires the new label is the uniform redraw over all `I` intentions (including the
chance of redrawing the same label); under this scheme the probability that a given
particle ends up reassigned away from its current label — to any of the other labels
collectively — equals `mutationProb`, while the probability of landing on each one
specific other label is `mutationProb / (I - 1)`. -/
theorem mutate_probability_amended (I : Nat) (p : ℚ) (cur : Nat) (hI : 2 ≤ I)
    (hcur : cur < I) :
    mutation_mask_probE I p = Except.ok (mutation_mask_prob I p) ∧
    (∀ u : ℚ, ∀ r : Nat, u ≤ mutation_mask_prob I p →
      mutate_select cur r (decide (mutation_mask_prob I p < u)) = cur) ∧
    (∀ r : Nat, mutate_select cur r true = r) ∧
    mutateOutcomeProb I p cur cur = 1 - p ∧
    (∀ c, c < I → c ≠ cur → mutateOutcomeProb I p cur c = p / ((I : ℚ) - 1)) ∧
    (∑ c ∈ (Finset.range I).erase cur, mutateOutcomeProb I p cur c) = p := by
  have hIne : (I : ℚ) ≠ 0 := Nat.cast_ne_zero.mpr (by omega)
  have hI1 : (I : ℚ) - 1 ≠ 0 := by
    have h1 : (I : ℚ) ≠ 1 := by
      intro hq
      have h2 : I = 1 := by exact_mod_cast hq
      omega
    exact sub_ne_zero.mpr h1
  have h5 : ∀ c, c < I → c ≠ cur → mutateOutcomeProb I p cur c = p / ((I : ℚ) - 1) := by
    intro c hc hne
    rw [mutateOutcomeProb_formula I p cur c hc, if_neg (fun h => hne h.symm)]
    unfold mutation_mask_prob
    field_simp
    ring
  refine ⟨?_, ?_, fun r => mutate_select_true cur r, ?_, h5, ?_⟩
  · unfold mutation_mask_probE pydiv
    rw [if_neg hI1]
    rfl
  · intro u r hu
    rw [decide_eq_false (not_lt.mpr hu), mutate_select_false]
  · rw [mutateOutcomeProb_formula I p cur cur hcur, if_pos rfl]
    unfold mutation_mask_prob
    field_simp
    ring
  · rw [Finset.sum_congr rfl (fun c hc => h5 c (Finset.mem_range.mp
        (Finset.mem_erase.mp hc).2) (Finset.mem_erase.mp hc).1),
      Finset.sum_const, Finset.card_erase_of_mem (Finset.mem_range.mpr hcur),
      Finset.card_range, nsmul_eq_mul, Nat.cast_sub (by omega : 1 ≤ I), Nat.cast_one]
    field_simp

/-- Witness for C4 (amended) at `I = 3`, `mutationProb = 1/100`, current label 0. -/
theorem mutate_probability_amended_witness :
    2 ≤ 3 ∧ 0 < 3 ∧
    (mutation_mask_probE 3 (1/100) = Except.ok (mutation_mask_prob 3 (1/100)) ∧
      (∀ u : ℚ, ∀ r : Nat, u ≤ mutation_mask_prob 3 (1/100) →
        mutate_select 0 r (decide (mutation_mask_prob 3 (1/100) < u)) = 0) ∧
      (∀ r : Nat, mutate_select 0 r true = r) ∧
      mutateOutcomeProb 3 (1/100) 0 0 = 1 - 1/100 ∧
      (∀ c, c < 3 → c ≠ 0 →
        mutateOutcomeProb 3 (1/100) 0 c = (1/100) / (((3 : ℕ) : ℚ) - 1)) ∧
      (∑ c ∈ (Finset.range 3).erase 0, mutateOutcomeProb 3 (1/100) 0 c) = 1/100) :=
  ⟨by omega, by omega, mutate_probability_amended 3 (1/100) 0 (by omega) (by omega)⟩

/-- Helper: `update_weight` written without the intermediate binding. -/
theorem update_weight_def (tau : ℝ) (weight gap : List ℝ) :
    update_weight tau weight gap
      = (List.zipWith (fun w g => w * Real.exp (-(tau * g))) weight gap).map
          (fun x => x /
            (List.zipWith (fun w g => w * Real.exp (-(tau * g))) weight gap).sum) := rfl

/-- Claim C2: for every (nonempty, strictly positive) weight vector and every equally
long gap vector returned by `compare_observation`, and every positive `tau` (the
source default is `0.1`), `update_weight` multiplies each `weight[i]` by
`exp(-tau * gap[i])` and then divides by the total, so the post-call weights sum to 1;
and a particle whose discrepancy is strictly larger than another's with equal prior
weight never ends up with a larger posterior weight. -/
theorem update_weight_spec (tau : ℝ) (weight gap : List ℝ) (htau : 0 < tau)
    (hne : weight ≠ []) (hlen : weight.length = gap.length)
    (hpos : ∀ w ∈ weight, 0 < w) :
    (∀ i, i < weight.length →
      (update_weight tau weight gap).getD i 0 =
        weight.getD i 0 * Real.exp (-(tau * gap.getD i 0)) /
          (List.zipWith (fun w g => w * Real.exp (-(tau * g))) weight gap).sum) ∧
    (update_weight tau weight gap).sum = 1 ∧
    (∀ i j, i < weight.length → j < weight.length →
      weight.getD i 0 = weight.getD j 0 → gap.getD j 0 < gap.getD i 0 →
      (update_weight tau weight gap).getD i 0
        ≤ (update_weight tau weight gap).getD j 0) := by
  have hw2len : (List.zipWith (fun w g => w * Real.exp (-(tau * g))) weight gap).length
      = weight.length := by
    rw [List.length_zipWith, hlen, min_self]
  have hw2pos := zipWith_weight_pos tau weight gap hpos
  have hw2ne : List.zipWith (fun w g => w * Real.exp (-(tau * g))) weight gap ≠ [] := by
    intro h0
    apply hne
    rw [h0] at hw2len
    exact List.eq_nil_of_length_eq_zero hw2len.symm
  have hS : 0 < (List.zipWith (fun w g => w * Real.exp (-(tau * g))) weight gap).sum :=
    List.sum_pos _ hw2pos hw2ne
  have hpt : ∀ i, i < weight.length → (update_weight tau weight gap).getD i 0
      = weight.getD i 0 * Real.exp (-(tau * gap.getD i 0)) /
          (List.zipWith (fun w g => w * Real.exp (-(tau * g))) weight gap).sum := by
    intro i hi
    rw [update_weight_def, getD_map_of_lt _ _ _ 0 0 (by rw [hw2len]; exact hi),
      getD_zipWith_of_lt _ _ _ _ 0 0 0 hi (by rw [← hlen]; exact hi)]
  refine ⟨hpt, ?_, ?_⟩
  · rw [update_weight_def, sum_map_div_const, div_self (ne_of_gt hS)]
  · intro i j hi hj hw hg
    rw [hpt i hi, hpt j hj, hw]
    have hwj : 0 < weight.getD j 0 := by
      rw [List.getD_eq_getElem _ _ hj]
      exact hpos _ (List.getElem_mem hj)
    have hexp : Real.exp (-(tau * gap.getD i 0)) ≤ Real.exp (-(tau * gap.getD j 0)) := by
      apply Real.exp_le_exp.mpr
      have h9 : tau * gap.getD j 0 ≤ tau * gap.getD i 0 :=
        mul_le_mul_of_nonneg_left (le_of_lt hg) (le_of_lt htau)
      linarith
    apply (div_le_div_iff_of_pos_right hS).mpr
    exact mul_le_mul_of_nonneg_left hexp (le_of_lt hwj)

/-- Witness for C2 at `tau = 1/10` (the source default), weights `[1/2, 1/2]`,
gaps `[0, 1]`. -/
theorem update_weight_spec_witness :
    (0 : ℝ) < 1/10 ∧
    ([(1 : ℝ)/2, 1/2] ≠ []) ∧
    ([(1 : ℝ)/2, 1/2].length = [(0 : ℝ), 1].length) ∧
    (∀ w ∈ [(1 : ℝ)/2, 1/2], 0 < w) ∧
    ((∀ i, i < [(1 : ℝ)/2, 1/2].length →
      (update_weight (1/10) [(1 : ℝ)/2, 1/2] [(0 : ℝ), 1]).getD i 0 =
        [(1 : ℝ)/2, 1/2].getD i 0 * Real.exp (-((1/10) * [(0 : ℝ), 1].getD i 0)) /
          (List.zipWith (fun w g => w * Real.exp (-((1/10) * g)))
            [(1 : ℝ)/2, 1/2] [(0 : ℝ), 1]).sum) ∧
    (update_weight (1/10) [(1 : ℝ)/2, 1/2] [(0 : ℝ), 1]).sum = 1 ∧
    (∀ i j, i < [(1 : ℝ)/2, 1/2].length → j < [(1 : ℝ)/2, 1/2].length →
      [(1 : ℝ)/2, 1/2].getD i 0 = [(1 : ℝ)/2, 1/2].getD j 0 →
      [(0 : ℝ), 1].getD j 0 < [(0 : ℝ), 1].getD i 0 →
      (update_weight (1/10) [(1 : ℝ)/2, 1/2] [(0 : ℝ), 1]).getD i 0
        ≤ (update_weight (1/10) [(1 : ℝ)/2, 1/2] [(0 : ℝ), 1]).getD j 0)) :=
  ⟨by norm_num, by simp, rfl, by norm_num,
    update_weight_spec (1/10) [(1 : ℝ)/2, 1/2] [(0 : ℝ), 1] (by norm_num) (by simp) rfl
      (by norm_num)⟩

/-- Claim C10: the output of `update_weight` is invariant under a uniform shift of the
discrepancies: adding the same constant `c` to every particle's gap leaves the
normalized weights unchanged, because the common factor `exp(-tau * c)` cancels in the
normalization step. -/
theorem update_weight_shift_invariant (tau c : ℝ) (weight gap : List ℝ) :
    update_weight tau weight (gap.map (fun g => g + c))
      = update_weight tau weight gap := by
  rw [update_weight_def, update_weight_def]
  have hfun : (fun (w g : ℝ) => w * Real.exp (-(tau * (g + c))))
      = fun w g => (w * Real.exp (-(tau * g))) * Real.exp (-(tau * c)) := by
    funext w g
    rw [mul_assoc, ← Real.exp_add]
    have harg : -(tau * g) + -(tau * c) = -(tau * (g + c)) := by ring
    rw [harg]
  have h1 : List.zipWith (fun w g => w * Real.exp (-(tau * g))) weight
        (gap.map (fun g => g + c))
      = (List.zipWith (fun w g => w * Real.exp (-(tau * g))) weight gap).map
          (fun x => x * Real.exp (-(tau * c))) := by
    rw [List.zipWith_map_right, List.map_zipWith, hfun]
  rw [h1, sum_map_mul_const, List.map_map]
  apply List.map_congr_left
  intro x _
  show (x * Real.exp (-(tau * c))) /
      ((List.zipWith (fun w g => w * Real.exp (-(tau * g))) weight gap).sum
        * Real.exp (-(tau * c)))
    = x / (List.zipWith (fun w g => w * Real.exp (-(tau * g))) weight gap).sum
  rw [mul_div_mul_comm, div_self (Real.exp_ne_zero _), mul_one]
